import Mathlib

/-!
Verification development for the txt-to-ppt content assignment and
refinement engine.

Python strings are modelled as Lean `String`s, operated on through their
character lists (`String.data`); Python's `str.strip` is modelled over the
ASCII whitespace characters it strips for the inputs of interest.  Python
dictionaries holding slide and placeholder information are modelled as
structures whose optional keys become `Option` fields.
-/

namespace TxtToPpt

/-! ## Basic string helpers (Python `str` semantics) -/

/-- Characters treated as whitespace by Python's `str.strip()` (ASCII part). -/
def isPySpace (c : Char) : Bool :=
  c = ' ' ∨ c = '\t' ∨ c = '\n' ∨ c = '\r' ∨ c = '\x0b' ∨ c = '\x0c'

/-- `str.strip()` on a character list. -/
def pyStripL (l : List Char) : List Char :=
  ((l.dropWhile isPySpace).reverse.dropWhile isPySpace).reverse

/-- `str.strip()`. -/
def pyStrip (s : String) : String :=
  String.mk (pyStripL s.data)

/-- Substring test on character lists (`sub in s` in Python). -/
def isInfixB (sub : List Char) : List Char → Bool
  | [] => sub.isEmpty
  | c :: cs => sub.isPrefixOf (c :: cs) || isInfixB sub cs

/-- Substring test (`sub in s` in Python). -/
def containsSub (s sub : String) : Bool :=
  isInfixB sub.data s.data

/-- `s.upper()` (ASCII). -/
def pyUpper (s : String) : String :=
  String.mk (s.data.map Char.toUpper)

/-- `s.lower()` (ASCII). -/
def pyLower (s : String) : String :=
  String.mk (s.data.map Char.toLower)

/-! ## Capacity fitter: `utils.truncate_text` -/

/-- `utils.truncate_text`: texts of length at most `maxLength` are returned
unchanged, longer texts are cut to `maxLength - 3` characters followed by an
ellipsis (`text[:max_length-3] + "..."`). -/
def truncate_text (text : String) (maxLength : Nat) : String :=
  if text.length ≤ maxLength then text
  else String.mk (text.data.take (maxLength - 3)) ++ "..."

theorem truncate_text_of_le (text : String) (maxLength : Nat)
    (h : text.length ≤ maxLength) : truncate_text text maxLength = text := by
  unfold truncate_text
  exact if_pos h

theorem truncate_text_length_le (text : String) (maxLength : Nat)
    (h : 3 ≤ maxLength) : (truncate_text text maxLength).length ≤ maxLength := by
  unfold truncate_text
  split
  · assumption
  · rename_i hlen
    push_neg at hlen
    have h1 : (String.mk (text.data.take (maxLength - 3)) ++ "...").length
        = (text.data.take (maxLength - 3)).length + 3 := by
      rw [String.length_append, String.length_mk]
      rfl
    rw [h1, List.length_take]
    have h2 : min (maxLength - 3) text.data.length ≤ maxLength - 3 :=
      Nat.min_le_left _ _
    omega

/-- **C6** — Fitter idempotence: `fit(fit(text, N), N) = fit(text, N)` for all
`N ≥ 4` (the second application sees a string of length at most `N` and
returns it unchanged). -/
theorem truncate_text_idempotent (text : String) (maxLength : Nat)
    (h : 4 ≤ maxLength) :
    truncate_text (truncate_text text maxLength) maxLength
      = truncate_text text maxLength := by
  exact truncate_text_of_le _ _ (truncate_text_length_le text maxLength (by omega))

/-- Witness for C6 at a concrete input: `fit("abcdefgh", 5) = "ab..."` and
applying `fit` again leaves it unchanged. -/
theorem truncate_text_idempotent_witness :
    (4 : Nat) ≤ 5 ∧
      truncate_text (truncate_text "abcdefgh" 5) 5 = truncate_text "abcdefgh" 5 :=
  ⟨by decide, truncate_text_idempotent "abcdefgh" 5 (by decide)⟩

/-! ## Format detector: `format_detector.py` -/

/-- `'0' ≤ c ≤ '9'` (regex `\d` on ASCII). -/
def isDigitChar (c : Char) : Bool :=
  '0' ≤ c ∧ c ≤ '9'

/-- Regex `\s` character class (ASCII part, as Python matches it). -/
def isRegexSpace (c : Char) : Bool :=
  isPySpace c

/-- Regex `^\d+[\.|\)]\s` from `detect_content_format` — one or more digits,
then `.`, `|` or `)`, then a whitespace character.  The character class
`[\.|\)]` literally contains `|`. -/
def numberedMatchFD (s : String) : Bool :=
  let l := s.data
  (!(l.takeWhile isDigitChar).isEmpty) &&
    (match l.dropWhile isDigitChar with
     | c :: w :: _ => ((c = '.' ∨ c = '|' ∨ c = ')') : Bool) && isRegexSpace w
     | _ => false)

/-- `BULLET_PREFIXES` startswith test:
`("• ", "- ", "* ", "•", "-")`. -/
def pyStartsWith (s p : String) : Bool :=
  p.data.isPrefixOf s.data

def startsWithBullet (s : String) : Bool :=
  pyStartsWith s "• " ∨ pyStartsWith s "- " ∨ pyStartsWith s "* " ∨
    pyStartsWith s "•" ∨ pyStartsWith s "-"

/-- `format_detector._is_separator`: the uppercased text contains one of the
marker strings, or is exactly `|` or `||`. -/
def fdIsSeparator (s : String) : Bool :=
  let t := pyUpper s
  containsSub t "[NEXT_PLACEHOLDER]" ∨ containsSub t "[PLACEHOLDER]" ∨
    containsSub t "[TEXT_AREA]" ∨ containsSub t "---" ∨ containsSub t "###" ∨
    t = "|" ∨ t = "||"

/-- Normalisation step of `detect_content_format`:
`[str(x).strip() for x in items if str(x).strip()]`. -/
def normItems (items : List String) : List String :=
  (items.map pyStrip).filter (· ≠ "")

/-- The remaining items after excluding separator markers
(`norm_wo_markers`). -/
def remainingItems (items : List String) : List String :=
  (normItems items).filter (fun x => ¬ fdIsSeparator x)

/-- `format_detector.detect_content_format`. -/
def detect_content_format (items : List String) : String :=
  if items = [] then "bullet_list"
  else
    let norm := normItems items
    if norm = [] then "bullet_list"
    else
      let rem := remainingItems items
      let numbered := (rem.filter numberedMatchFD).length
      let bullets := (rem.filter startsWithBullet).length
      if rem.length = 1 ∧ 140 < (rem.headD "").length then "paragraph"
      else if Nat.max 1 (rem.length / 2) ≤ numbered then "numbered_list"
      else if Nat.max 1 (rem.length / 2) ≤ bullets then "bullet_list"
      else if 1 < rem.length then "bullet_list"
      else "paragraph"

theorem remainingItems_ne_nil_imp {items : List String}
    (h : remainingItems items ≠ []) : items ≠ [] ∧ normItems items ≠ [] := by
  constructor
  · intro hi
    apply h
    simp [remainingItems, normItems, hi]
  · intro hn
    apply h
    simp [remainingItems, hn]

/-- **C5** (amended) — whenever the remaining items (non-blank, separators
excluded) are non-empty, at least half of them match the code's
numbered-prefix regex `^\d+[\.|\)]\s` (digits, then `.`/`|`/`)`, then a
whitespace; single-letter ordinals are *not* matched), and the
single-long-item paragraph rule does not fire (it is checked first), the
detector classifies `numbered_list`. -/
theorem detect_format_numbered_of_half (items : List String)
    (hne : remainingItems items ≠ [])
    (hhalf : (remainingItems items).length
      ≤ 2 * ((remainingItems items).filter numberedMatchFD).length)
    (hpar : ¬ ((remainingItems items).length = 1 ∧
      140 < ((remainingItems items).headD "").length)) :
    detect_content_format items = "numbered_list" := by
  obtain ⟨hitems, hnorm⟩ := remainingItems_ne_nil_imp hne
  have hlen : 0 < (remainingItems items).length := List.length_pos.mpr hne
  have hnum : 1 ≤ ((remainingItems items).filter numberedMatchFD).length := by
    omega
  have hdiv : (remainingItems items).length / 2
      ≤ ((remainingItems items).filter numberedMatchFD).length := by
    calc (remainingItems items).length / 2
        ≤ 2 * ((remainingItems items).filter numberedMatchFD).length / 2 :=
          Nat.div_le_div_right hhalf
      _ = ((remainingItems items).filter numberedMatchFD).length :=
          Nat.mul_div_cancel_left _ (by norm_num)
  have hmax : Nat.max 1 ((remainingItems items).length / 2)
      ≤ ((remainingItems items).filter numberedMatchFD).length :=
    Nat.max_le.mpr ⟨hnum, hdiv⟩
  simp only [detect_content_format, if_neg hitems, if_neg hnorm]
  rw [if_neg hpar, if_pos hmax]

/-- Witness for C5 at a concrete input: all three items are numbered, so the
detector returns `numbered_list`. -/
theorem detect_format_numbered_witness :
    remainingItems ["1. x", "2. y", "3. z"] ≠ [] ∧
      detect_content_format ["1. x", "2. y", "3. z"] = "numbered_list" :=
  ⟨by decide, detect_format_numbered_of_half ["1. x", "2. y", "3. z"]
    (by decide) (by decide) (by decide)⟩

set_option maxRecDepth 100000 in
/-- Counterexample to C5 as stated: the single remaining item matches the
numbered-prefix pattern (so 100% ≥ half of remaining items match), yet the
detector returns `paragraph`, because the single-long-item paragraph rule is
checked before the numbered rule. -/
theorem detect_format_numbered_counterexample :
    numberedMatchFD ("1. " ++ String.mk (List.replicate 150 'a')) = true ∧
      remainingItems ["1. " ++ String.mk (List.replicate 150 'a')]
        = ["1. " ++ String.mk (List.replicate 150 'a')] ∧
      detect_content_format ["1. " ++ String.mk (List.replicate 150 'a')]
        = "paragraph" ∧
      ("paragraph" : String) ≠ "numbered_list" := by
  refine ⟨by decide, by decide, by decide, by decide⟩

/-! ## Placeholder content distributor: `multi_placeholder_handler.py` -/

/-- Case-insensitive literal prefix match; `pat` is given uppercased. -/
def stripPrefixCI (pat : List Char) (l : List Char) : Option (List Char) :=
  match pat, l with
  | [], rest => some rest
  | _ :: _, [] => none
  | p :: ps, c :: cs => if c.toUpper = p then stripPrefixCI ps cs else none

/-- Consume regex `[_\s]*\d*\]` (the tail of the `[PLACEHOLDER_X]` /
`[TEXT_AREA_X]` patterns). -/
def matchBracketTail (l : List Char) : Option (List Char) :=
  let l1 := l.dropWhile (fun c => c = '_' ∨ isRegexSpace c)
  let l2 := l1.dropWhile isDigitChar
  match l2 with
  | ']' :: rest => some rest
  | _ => none

/-- Regex `\[PLACEHOLDER[_\s]*\d*\]` (IGNORECASE) anchored at the start. -/
def matchPlaceholderPat (l : List Char) : Option (List Char) :=
  match stripPrefixCI "[PLACEHOLDER".data l with
  | some rest => matchBracketTail rest
  | none => none

/-- Regex `\[NEXT_PLACEHOLDER\]` (IGNORECASE) anchored at the start. -/
def matchNextPlaceholderPat (l : List Char) : Option (List Char) :=
  stripPrefixCI "[NEXT_PLACEHOLDER]".data l

/-- Regex `\[TEXT_AREA[_\s]*\d*\]` (IGNORECASE) anchored at the start. -/
def matchTextAreaPat (l : List Char) : Option (List Char) :=
  match stripPrefixCI "[TEXT_AREA".data l with
  | some rest => matchBracketTail rest
  | none => none

/-- `re.sub(pat, '', text)`: scan left to right, delete each match, copy
unmatched characters.  Fuelled with the list length; every matcher consumes
at least one character on success, so the fuel suffices. -/
def subPatAux (tryM : List Char → Option (List Char)) : Nat → List Char → List Char
  | _, [] => []
  | 0, l => l
  | fuel + 1, c :: cs =>
    match tryM (c :: cs) with
    | some rest => subPatAux tryM fuel rest
    | none => c :: subPatAux tryM fuel cs

def subPattern (tryM : List Char → Option (List Char)) (l : List Char) : List Char :=
  subPatAux tryM l.length l

/-- The marker-removal step inside `parse_multi_placeholder_content`: delete
`[PLACEHOLDER_X]`, `[NEXT_PLACEHOLDER]` and `[TEXT_AREA_X]` patterns, then
strip. -/
def stripMarkers (s : String) : String :=
  let l1 := subPattern matchPlaceholderPat s.data
  let l2 := subPattern matchNextPlaceholderPat l1
  let l3 := subPattern matchTextAreaPat l2
  pyStrip (String.mk l3)

/-- The bracket-separator test of `parse_multi_placeholder_content`:
`any(sep in item_str.upper() for sep in ['[PLACEHOLDER', '[NEXT_PLACEHOLDER',
'[TEXT_AREA'])`. -/
def mphBracketSep (s : String) : Bool :=
  let u := pyUpper s
  containsSub u "[PLACEHOLDER" ∨ containsSub u "[NEXT_PLACEHOLDER" ∨
    containsSub u "[TEXT_AREA"

/-- An item the handler treats as (or as containing) a separator. -/
def mphIsSeparatorItem (s : String) : Bool :=
  mphBracketSep s ∨ pyStrip s = "---" ∨ pyStrip s = "###"

/-- One step of the grouping loop of `parse_multi_placeholder_content`.
The accumulator keeps the groups in reverse order, each group reversed
(the head is the group currently being filled). -/
def parseStep (acc : List (List String)) (item : String) : List (List String) :=
  if item = "" then acc
  else if mphBracketSep item then
    (if stripMarkers item = "" then [] else [stripMarkers item]) :: acc
  else if pyStrip item = "---" ∨ pyStrip item = "###" then [] :: acc
  else
    match acc with
    | [] => [[item]]
    | g :: gs => (item :: g) :: gs

/-- The grouping loop of `parse_multi_placeholder_content` (before empty
groups are removed). -/
def parseGroups (items : List String) : List (List String) :=
  ((items.foldl parseStep [[]]).map List.reverse).reverse

/-- `item and str(item).strip()` filter used by `_auto_split_content`. -/
def cleanItems (l : List String) : List String :=
  l.filter (fun s => s ≠ "" ∧ pyStrip s ≠ "")

/-- The even-chunking loop of `_auto_split_content`: group `i` gets
`per + 1` items while `i < rem`, else `per`; stops when the list is
exhausted, and only non-empty groups are kept (a group is automatically
non-empty here because `per ≥ 1`). -/
def buildGroups : List String → Nat → Nat → Nat → List (List String)
  | _, _, _, 0 => []
  | [], _, _, _ + 1 => []
  | l@(_ :: _), per, rem, c + 1 =>
    let k := per + (if 0 < rem then 1 else 0)
    l.take k :: buildGroups (l.drop k) per (rem - 1) c

/-- `groups[j].append(x)`. -/
def appendRR (gs : List (List String)) (j : Nat) (x : String) : List (List String) :=
  gs.set j (gs.getD j [] ++ [x])

/-- The redistribution branch of `_auto_split_content` for
`num_items ≥ max_placeholders`: one item per group, extras appended
round-robin. -/
def redistributeGroups (clean : List String) (maxP : Nat) : List (List String) :=
  let base := (clean.take maxP).map (fun x => [x])
  (List.range' maxP (clean.length - maxP)).foldl
    (fun gs i => appendRR gs (i % gs.length) (clean.getD i "")) base

/-- `MultiPlaceholderHandler._auto_split_content`. -/
def autoSplitContent (contentList : List String) (maxPlaceholders : Nat) :
    List (List String) :=
  if contentList = [] then [[]]
  else
    let clean := cleanItems contentList
    if clean = [] then [[]]
    else
      let num := clean.length
      if maxPlaceholders ≤ 1 then [clean]
      else
        let per := Nat.max 1 (num / maxPlaceholders)
        let rem := num % maxPlaceholders
        let groups := buildGroups clean per rem maxPlaceholders
        let groups2 :=
          if groups.length < maxPlaceholders ∧ 0 < num then
            (if maxPlaceholders ≤ num then redistributeGroups clean maxPlaceholders
             else clean.map (fun x => [x]))
          else groups
        if groups2 = [] then [[]] else groups2

/-- `MultiPlaceholderHandler.parse_multi_placeholder_content`. -/
def parse_multi_placeholder_content (contentList : List String) :
    List (List String) :=
  if contentList = [] then [[]]
  else
    let gs := (parseGroups contentList).filter (· ≠ [])
    if gs.length = 1 ∧ 3 < contentList.length then autoSplitContent contentList 4
    else if gs = [] then [[]] else gs

/-- The distribution used by `replace_slide_content_multi_aware`: parse into
groups, and when the slide has several content placeholders but only one
group was produced, auto-split that group across the placeholders. -/
def distribute (items : List String) (placeholderCount : Nat) :
    List (List String) :=
  let groups := parse_multi_placeholder_content items
  if 1 < placeholderCount ∧ groups.length = 1 then
    autoSplitContent (groups.headD []) placeholderCount
  else groups

theorem autoSplitContent_ne_nil (l : List String) (n : Nat) :
    autoSplitContent l n ≠ [] := by
  simp only [autoSplitContent]
  repeat' split
  all_goals first | assumption | simp

/-- **C10** — `parse_multi_placeholder_content` always returns a non-empty
list of groups; the empty input yields exactly one empty group, so the
caller's access to the first group never fails. -/
theorem parse_multi_placeholder_content_never_empty :
    (∀ items, parse_multi_placeholder_content items ≠ []) ∧
      parse_multi_placeholder_content [] = [[]] := by
  constructor
  · intro items
    simp only [parse_multi_placeholder_content]
    split
    · simp
    · split
      · exact autoSplitContent_ne_nil _ _
      · split
        · simp
        · assumption
  · rfl

/-- An item that the grouping loop treats as plain content. -/
def plainItem (s : String) : Prop :=
  s ≠ "" ∧ pyStrip s ≠ "" ∧ mphIsSeparatorItem s = false

theorem parseStep_plain {s : String} (h : plainItem s) (g : List String)
    (gs : List (List String)) :
    parseStep (g :: gs) s = (s :: g) :: gs := by
  obtain ⟨h1, _, h3⟩ := h
  have hb : mphBracketSep s = false := by
    simp [mphIsSeparatorItem] at h3
    exact h3.1
  have hd : ¬ (pyStrip s = "---" ∨ pyStrip s = "###") := by
    simp [mphIsSeparatorItem] at h3
    simp [h3.2.1, h3.2.2]
  simp [parseStep, h1, hb, hd]

theorem foldl_parseStep_plain (items : List String)
    (h : ∀ s ∈ items, plainItem s) (g : List String) (gs : List (List String)) :
    items.foldl parseStep (g :: gs) = (items.reverse ++ g) :: gs := by
  induction items generalizing g with
  | nil => simp
  | cons i rest ih =>
    rw [List.foldl_cons, parseStep_plain (h i (by simp)) g gs,
      ih (fun s hs => h s (by simp [hs])) (i :: g)]
    simp

theorem parseGroups_plain (items : List String)
    (h : ∀ s ∈ items, plainItem s) : parseGroups items = [items] := by
  unfold parseGroups
  rw [foldl_parseStep_plain items h [] []]
  simp

/-- `cleanItems` keeps every plain item. -/
theorem cleanItems_eq_self (l : List String)
    (h : ∀ s ∈ l, s ≠ "" ∧ pyStrip s ≠ "") : cleanItems l = l := by
  apply List.filter_eq_self.mpr
  intro a ha
  have := h a ha
  simp [this.1, this.2]

theorem take_add_split (l : List α) (m k : Nat) :
    l.take (m + k) = l.take m ++ (l.drop m).take k := by
  rw [List.take_drop]
  have h1 : l.take m = (l.take (m + k)).take m := by
    rw [List.take_take]
    congr 1
    omega
  rw [h1, List.take_append_drop]

theorem buildGroups_flatten (c : Nat) :
    ∀ (l : List String) (per rem : Nat),
      (buildGroups l per rem c).flatten = l.take (per * c + Nat.min rem c) := by
  induction c with
  | zero => intro l per rem; simp [buildGroups]
  | succ c ih =>
    intro l per rem
    match l with
    | [] => simp [buildGroups]
    | x :: xs =>
      rw [buildGroups]
      rw [List.flatten_cons, ih]
      have hmul : per * (c + 1) = per * c + per := by ring
      by_cases hr : 0 < rem
      · have hk : per + (if 0 < rem then 1 else 0) = per + 1 := by simp [hr]
        obtain ⟨r, rfl⟩ : ∃ r, rem = r + 1 := ⟨rem - 1, by omega⟩
        have hmin : Nat.min (r + 1) (c + 1) = Nat.min r c + 1 := Nat.succ_min_succ r c
        rw [hk, ← take_add_split]
        congr 1
        simp only [Nat.add_sub_cancel]
        omega
      · have hk : per + (if 0 < rem then 1 else 0) = per := by simp [hr]
        have hrem : rem = 0 := by omega
        subst hrem
        rw [hk, ← take_add_split]
        congr 1
        simp only [Nat.zero_sub, Nat.zero_min]
        omega

theorem buildGroups_length_le (c : Nat) :
    ∀ (l : List String) (per rem : Nat), 1 ≤ per →
      (buildGroups l per rem c).length ≤ l.length := by
  induction c with
  | zero => intro l per rem _; simp [buildGroups]
  | succ c ih =>
    intro l per rem hper
    match l with
    | [] => simp [buildGroups]
    | x :: xs =>
      rw [buildGroups]
      have h1 := ih ((x :: xs).drop (per + (if 0 < rem then 1 else 0))) per (rem - 1) hper
      have h2 : ((x :: xs).drop (per + (if 0 < rem then 1 else 0))).length
          = (x :: xs).length - (per + (if 0 < rem then 1 else 0)) := by
        rw [List.length_drop]
      simp only [List.length_cons] at h2 ⊢
      omega

theorem buildGroups_length_eq (c : Nat) :
    ∀ (l : List String) (per rem : Nat), 1 ≤ per →
      per * c + Nat.min rem c ≤ l.length →
      (buildGroups l per rem c).length = c := by
  induction c with
  | zero => intro l per rem _ _; simp [buildGroups]
  | succ c ih =>
    intro l per rem hper hle
    match l with
    | [] =>
      exfalso
      simp only [List.length_nil] at hle
      have : 1 ≤ per * (c + 1) := by
        calc 1 ≤ per := hper
          _ ≤ per * (c + 1) := Nat.le_mul_of_pos_right per (by omega)
      omega
    | x :: xs =>
      rw [buildGroups]
      simp only [List.length_cons]
      have hmul : per * (c + 1) = per * c + per := by ring
      rw [ih ((x :: xs).drop (per + (if 0 < rem then 1 else 0))) per (rem - 1) hper]
      rw [List.length_drop]
      by_cases hr : 0 < rem
      · obtain ⟨r, rfl⟩ : ∃ r, rem = r + 1 := ⟨rem - 1, by omega⟩
        have hmin : Nat.min (r + 1) (c + 1) = Nat.min r c + 1 := Nat.succ_min_succ r c
        have hif : (if 0 < r + 1 then 1 else 0) = 1 := by simp
        simp only [hif, Nat.add_sub_cancel] at *
        simp only [List.length_cons] at hle ⊢
        omega
      · have hrem : rem = 0 := by omega
        subst hrem
        have hif : (if 0 < (0 : Nat) then 1 else 0) = 0 := by simp
        simp only [hif, Nat.zero_min, Nat.zero_sub, Nat.add_zero] at *
        simp only [List.length_cons] at hle ⊢
        omega

theorem flatten_map_singleton (l : List α) :
    (l.map (fun x => [x])).flatten = l := by
  induction l <;> simp_all

theorem cleanItems_ne_nil {l : List String}
    (h : ∀ s ∈ l, s ≠ "" ∧ pyStrip s ≠ "") (hl : l ≠ []) : cleanItems l ≠ [] := by
  rw [cleanItems_eq_self l h]
  exact hl

theorem autoSplitContent_big (l : List String) (n : Nat)
    (h : ∀ s ∈ l, s ≠ "" ∧ pyStrip s ≠ "") (hn : 2 ≤ n) (hbig : n ≤ l.length) :
    autoSplitContent l n
      = buildGroups l (l.length / n) (l.length % n) n ∧
    (autoSplitContent l n).length = n ∧
    (autoSplitContent l n).flatten = l := by
  have hl : l ≠ [] := by
    intro hnil
    subst hnil
    simp at hbig
    omega
  have hclean : cleanItems l = l := cleanItems_eq_self l h
  have hn0 : 0 < n := by omega
  have hnn : ¬ n ≤ 1 := by omega
  have hdiv1 : 1 ≤ l.length / n := (Nat.one_le_div_iff hn0).mpr hbig
  have hmax : Nat.max 1 (l.length / n) = l.length / n := Nat.max_eq_right hdiv1
  have hsum : l.length / n * n + Nat.min (l.length % n) n = l.length := by
    have hmod : l.length % n < n := Nat.mod_lt _ hn0
    have hdm := Nat.div_add_mod l.length n
    have hcomm : l.length / n * n = n * (l.length / n) := Nat.mul_comm _ _
    have hminr : Nat.min (l.length % n) n = l.length % n :=
      Nat.min_eq_left (by omega)
    rw [hminr]
    omega
  have hlen : (buildGroups l (l.length / n) (l.length % n) n).length = n := by
    apply buildGroups_length_eq n l (l.length / n) (l.length % n) hdiv1
    omega
  have hflat : (buildGroups l (l.length / n) (l.length % n) n).flatten = l := by
    rw [buildGroups_flatten n l (l.length / n) (l.length % n), hsum, List.take_length]
  have hcond : ¬ ((buildGroups l (l.length / n) (l.length % n) n).length < n
      ∧ 0 < l.length) := by
    rw [hlen]
    omega
  have hne : buildGroups l (l.length / n) (l.length % n) n ≠ [] := by
    intro hnil
    rw [hnil] at hlen
    simp at hlen
    omega
  have heq : autoSplitContent l n = buildGroups l (l.length / n) (l.length % n) n := by
    simp only [autoSplitContent, hclean, if_neg hl, if_neg hnn, hmax]
    rw [if_neg hcond, if_neg hne]
  refine ⟨heq, ?_, ?_⟩
  · rw [heq]
    exact hlen
  · rw [heq]
    exact hflat

theorem autoSplitContent_flatten (l : List String) (n : Nat)
    (h : ∀ s ∈ l, s ≠ "" ∧ pyStrip s ≠ "") :
    (autoSplitContent l n).flatten = l := by
  by_cases hl : l = []
  · subst hl; simp [autoSplitContent]
  · have hclean : cleanItems l = l := cleanItems_eq_self l h
    by_cases hn : n ≤ 1
    · simp only [autoSplitContent, hclean, if_neg hl, if_pos hn]
      simp
    · by_cases hbig : n ≤ l.length
      · exact (autoSplitContent_big l n h (by omega) hbig).2.2
      · -- fewer items than placeholders: one singleton group per item
        have hlpos : 0 < l.length := List.length_pos.mpr hl
        have hle := buildGroups_length_le n l (Nat.max 1 (l.length / n))
          (l.length % n) (Nat.le_max_left _ _)
        have hcond : (buildGroups l (Nat.max 1 (l.length / n)) (l.length % n) n).length < n
            ∧ 0 < l.length := ⟨by omega, hlpos⟩
        have hmapne : List.map (fun x => [x]) l ≠ [] := by
          intro hnil
          simp at hnil
          exact hl hnil
        simp only [autoSplitContent, hclean, if_neg hl, if_neg hn]
        rw [if_pos hcond, if_neg hbig, if_neg hmapne]
        exact flatten_map_singleton l

/-- A separator item that the grouping loop drops entirely: either a bracket
marker whose text is nothing but the marker, or a bare `---`/`###` rule. -/
def droppedSentinel (s : String) : Prop :=
  (mphBracketSep s = true ∧ stripMarkers s = "") ∨
    (mphBracketSep s = false ∧ (pyStrip s = "---" ∨ pyStrip s = "###"))

/-- An item that is either plain content or a pure separator marker. -/
def goodItem (s : String) : Prop :=
  s ≠ "" ∧ pyStrip s ≠ "" ∧ (mphIsSeparatorItem s = true → droppedSentinel s)

instance (s : String) : Decidable (droppedSentinel s) := by
  unfold droppedSentinel
  infer_instance

instance (s : String) : Decidable (goodItem s) := by
  unfold goodItem
  infer_instance

instance (s : String) : Decidable (plainItem s) := by
  unfold plainItem
  infer_instance

/-- The items accumulated so far by the grouping loop, in input order. -/
def flattenState (acc : List (List String)) : List String :=
  ((acc.map List.reverse).reverse).flatten

theorem flattenState_newgroup (acc : List (List String)) :
    flattenState ([] :: acc) = flattenState acc := by
  simp [flattenState]

theorem flattenState_single (acc : List (List String)) (x : String) :
    flattenState ([x] :: acc) = flattenState acc ++ [x] := by
  simp [flattenState]

theorem flattenState_extend (g : List String) (gs : List (List String))
    (i : String) :
    flattenState ((i :: g) :: gs) = flattenState (g :: gs) ++ [i] := by
  simp [flattenState]

theorem foldl_parseStep_flatten (items : List String)
    (h : ∀ s ∈ items, goodItem s) :
    ∀ acc, acc ≠ [] →
      flattenState (items.foldl parseStep acc)
        = flattenState acc
            ++ items.filter (fun s => mphIsSeparatorItem s = false) := by
  induction items with
  | nil => intro acc _; simp
  | cons i rest ih =>
    intro acc hacc
    obtain ⟨h1, h2, h3⟩ := h i (by simp)
    rw [List.foldl_cons]
    by_cases hsep : mphIsSeparatorItem i = true
    · have hd := h3 hsep
      have hstep : parseStep acc i = [] :: acc := by
        rcases hd with ⟨hb, hm⟩ | ⟨hb, hs⟩
        · simp [parseStep, h1, hb, hm]
        · rcases hs with hs | hs <;> simp [parseStep, h1, hb, hs]
      rw [hstep, ih (fun s hs => h s (by simp [hs])) ([] :: acc) (by simp),
        flattenState_newgroup]
      have hfil : List.filter (fun s => mphIsSeparatorItem s = false) (i :: rest)
          = List.filter (fun s => mphIsSeparatorItem s = false) rest := by
        simp [List.filter_cons, hsep]
      rw [hfil]
    · have hsep' : mphIsSeparatorItem i = false := by
        simpa using hsep
      match acc, hacc with
      | g :: gs, _ =>
        rw [parseStep_plain ⟨h1, h2, hsep'⟩ g gs,
          ih (fun s hs => h s (by simp [hs])) ((i :: g) :: gs) (by simp),
          flattenState_extend]
        have hfil : List.filter (fun s => mphIsSeparatorItem s = false) (i :: rest)
            = i :: List.filter (fun s => mphIsSeparatorItem s = false) rest := by
          simp [List.filter_cons, hsep']
        rw [hfil]
        simp

theorem parseGroups_flatten (items : List String)
    (h : ∀ s ∈ items, goodItem s) :
    (parseGroups items).flatten
      = items.filter (fun s => mphIsSeparatorItem s = false) := by
  have hmain := foldl_parseStep_flatten items h [[]] (by simp)
  have hempty : flattenState [[]] = [] := by simp [flattenState]
  rw [hempty] at hmain
  simpa [parseGroups, flattenState] using hmain

theorem goodItem_clean {s : String} (h : goodItem s) :
    s ≠ "" ∧ pyStrip s ≠ "" :=
  ⟨h.1, h.2.1⟩

theorem parse_flatten (items : List String)
    (h : ∀ s ∈ items, goodItem s)
    (hsmall : items.length ≤ 3 ∨ ∀ s ∈ items, mphIsSeparatorItem s = false) :
    (parse_multi_placeholder_content items).flatten
      = items.filter (fun s => mphIsSeparatorItem s = false) := by
  by_cases hnil : items = []
  · subst hnil; simp [parse_multi_placeholder_content]
  · have hgs : ((parseGroups items).filter (· ≠ [])).flatten
        = items.filter (fun s => mphIsSeparatorItem s = false) := by
      rw [List.flatten_filter_ne_nil, parseGroups_flatten items h]
    simp only [parse_multi_placeholder_content, if_neg hnil]
    split
    · rename_i hcond
      have hlong : 3 < items.length := hcond.2
      have hnosep : ∀ s ∈ items, mphIsSeparatorItem s = false := by
        cases hsmall with
        | inl hle => omega
        | inr hns => exact hns
      rw [autoSplitContent_flatten items 4 (fun s hs => goodItem_clean (h s hs))]
      rw [List.filter_eq_self.mpr]
      intro a ha
      simp [hnosep a ha]
    · split
      · rename_i hgnil
        rw [hgnil] at hgs
        simp only [List.flatten_nil] at hgs
        simp only [List.flatten_cons, List.flatten_nil, List.append_nil]
        exact hgs
      · exact hgs

theorem distribute_flatten (items : List String) (n : Nat)
    (h : ∀ s ∈ items, goodItem s)
    (hsmall : items.length ≤ 3 ∨ ∀ s ∈ items, mphIsSeparatorItem s = false) :
    (distribute items n).flatten
      = items.filter (fun s => mphIsSeparatorItem s = false) := by
  have hflat := parse_flatten items h hsmall
  simp only [distribute]
  split
  · rename_i hcond
    obtain ⟨g0, hg0⟩ : ∃ g, parse_multi_placeholder_content items = [g] := by
      have := hcond.2
      match hp : parse_multi_placeholder_content items, this with
      | [g], _ => exact ⟨g, rfl⟩
    rw [hg0]
    simp only [List.headD_cons]
    rw [hg0] at hflat
    simp only [List.flatten_cons, List.flatten_nil, List.append_nil] at hflat
    rw [autoSplitContent_flatten g0 n]
    · exact hflat
    · intro s hs
      rw [hflat] at hs
      exact goodItem_clean (h s (List.mem_of_mem_filter hs))
  · exact hflat

theorem parse_plain_small (items : List String)
    (hplain : ∀ s ∈ items, plainItem s) (hlen : items.length ≤ 3) :
    parse_multi_placeholder_content items = [items] := by
  by_cases hnil : items = []
  · subst hnil; rfl
  · have hpg : parseGroups items = [items] := parseGroups_plain items hplain
    simp only [parse_multi_placeholder_content, if_neg hnil, hpg]
    rw [if_neg (by
      intro hcond
      omega)]
    rw [if_neg (by simp [hnil])]
    simp [hnil]

/-- **C3** (amended) — for an items list whose entries are non-blank and are
each either plain content or a pure sentinel marker, and which either has at
most 3 items or contains no sentinel at all, flattening
`distribute(items, n)` yields exactly the input items with the sentinel
items removed, in the same relative order, for every placeholder count. -/
theorem distribute_roundtrip (items : List String) (n : Nat)
    (hgood : ∀ s ∈ items, goodItem s)
    (hsmall : items.length ≤ 3 ∨ ∀ s ∈ items, mphIsSeparatorItem s = false) :
    (distribute items n).flatten
      = items.filter (fun s => mphIsSeparatorItem s = false) :=
  distribute_flatten items n hgood hsmall

/-- Witness for C3 at the spec's own example shape:
`["a", "[NEXT_PLACEHOLDER]", "b"]` with 2 placeholders flattens back to
`["a", "b"]`. -/
theorem distribute_roundtrip_witness :
    (∀ s ∈ ["a", "[NEXT_PLACEHOLDER]", "b"], goodItem s) ∧
      (distribute ["a", "[NEXT_PLACEHOLDER]", "b"] 2).flatten
        = ["a", "[NEXT_PLACEHOLDER]", "b"].filter
            (fun s => mphIsSeparatorItem s = false) ∧
      (distribute ["a", "[NEXT_PLACEHOLDER]", "b"] 2).flatten = ["a", "b"] :=
  ⟨by decide,
    distribute_roundtrip ["a", "[NEXT_PLACEHOLDER]", "b"] 2 (by decide)
      (Or.inl (by decide)),
    by decide⟩

/-- Counterexample to C3 as stated: the empty-string item is not a sentinel
marker, yet the grouping loop silently drops it, so the flattened
distribution is `["a"]` and not `["", "a"]`. -/
theorem distribute_roundtrip_counterexample :
    (distribute ["", "a"] 1).flatten = ["a"] ∧
      ["", "a"].filter (fun s => mphIsSeparatorItem s = false) = ["", "a"] ∧
      (["a"] : List String) ≠ ["", "a"] := by
  refine ⟨by decide, by decide, by decide⟩

/-- **C4** (amended/corrected) — for a list of at most 3 plain non-blank
items, `distribute` with `placeholder_count ≤ 1` returns a single group
containing all items, and with `placeholder_count > 1` it auto-partitions
exactly as `_auto_split_content` does, the groups flattening back to the
items in order.  (With more than 3 items the parser auto-partitions into up
to 4 groups regardless of the placeholder count, which is what refutes the
claim as stated.) -/
theorem distribute_single_group (items : List String) (n : Nat)
    (hplain : ∀ s ∈ items, plainItem s) (hlen : items.length ≤ 3) :
    (n ≤ 1 → distribute items n = [items]) ∧
      (1 < n → distribute items n = autoSplitContent items n ∧
        (distribute items n).flatten = items) := by
  have hparse : parse_multi_placeholder_content items = [items] :=
    parse_plain_small items hplain hlen
  constructor
  · intro hn
    simp only [distribute, hparse]
    rw [if_neg (by
      intro hcond
      omega)]
  · intro hn
    have hd : distribute items n = autoSplitContent items n := by
      simp only [distribute, hparse]
      rw [if_pos ⟨hn, by simp⟩]
      simp
    refine ⟨hd, ?_⟩
    rw [hd]
    exact autoSplitContent_flatten items n
      (fun s hs => ⟨(hplain s hs).1, (hplain s hs).2.1⟩)

/-- Witness for C4 (amended) at a concrete input: three plain items form one
group for a single placeholder, and split into groups `[a, b]`, `[c]` for
two placeholders. -/
theorem distribute_single_group_witness :
    (∀ s ∈ ["a", "b", "c"], plainItem s) ∧
      distribute ["a", "b", "c"] 1 = [["a", "b", "c"]] ∧
      distribute ["a", "b", "c"] 2 = [["a", "b"], ["c"]] :=
  ⟨by decide,
    (distribute_single_group ["a", "b", "c"] 1 (by decide) (by decide)).1
      (by decide),
    by
      rw [((distribute_single_group ["a", "b", "c"] 2 (by decide)
        (by decide)).2 (by decide)).1]
      decide⟩

/-- Counterexample to C4 as stated: four plain items with a single
placeholder are *not* returned as one group — the parser auto-partitions
them into four groups because the input has more than 3 items, regardless of
the placeholder count. -/
theorem distribute_single_group_counterexample :
    distribute ["a", "b", "c", "d"] 1 = [["a"], ["b"], ["c"], ["d"]] ∧
      distribute ["a", "b", "c", "d"] 1 ≠ [["a", "b", "c", "d"]] := by
  refine ⟨by decide, by decide⟩

/-! ## Data model for template slides and placeholders

A template slide is the dictionary produced by the template analyzer; the
keys the core reads become fields, optional keys become `Option` fields. -/

structure Ph where
  type : String
  text_format : Option String
  suggested_lines : Option Nat
  max_chars_per_line : Option Nat
deriving DecidableEq, Inhabited

structure TSlide where
  suggested_content_type : Option String
  has_title : Bool
  has_subtitle : Bool
  has_content : Bool
  layout_name : String
  content_format : Option String
  placeholders : List Ph
deriving DecidableEq, Inhabited

/-- `format_detector.get_content_placeholders_from_template_slide`: keep the
placeholders whose uppercased `type` contains CONTENT, BODY, TEXT or
OBJECT. -/
def get_content_placeholders_from_template_slide (t : TSlide) : List Ph :=
  t.placeholders.filter (fun ph =>
    containsSub (pyUpper ph.type) "CONTENT" ∨ containsSub (pyUpper ph.type) "BODY" ∨
      containsSub (pyUpper ph.type) "TEXT" ∨ containsSub (pyUpper ph.type) "OBJECT")

/-! ## Refinement orchestrator: `slide_refiner.py` -/

/-- A slide dictionary as the refiner sees it: generated content plus the
embedded `_template_slide_info` (absent models the `{}` default). -/
structure RSlide where
  title : Option String
  subtitle : Option String
  content : List String
  template_info : Option TSlide
deriving DecidableEq, Inhabited

/-- Number of content items containing `[PLACEHOLDER` (uppercased), as
counted by `_validate_refined_content`. -/
def countPlaceholderMarkers (content : List String) : Nat :=
  (content.filter (fun it => containsSub (pyUpper it) "[PLACEHOLDER")).length

/-- `SlideRefiner._validate_refined_content`. -/
def validateRefinedContent (slide : RSlide) : Bool :=
  let phs := match slide.template_info with
    | none => []
    | some t => get_content_placeholders_from_template_slide t
  if 1 < phs.length then
    if slide.content = [] then false
    else
      let markers := countPlaceholderMarkers slide.content
      let expected := phs.length - 1
      if markers < expected then
        decide (0 < markers ∨ phs.length ≤ slide.content.length)
      else true
  else true

/-- **C9** (amended) — for a slide whose target slot has more than one
content placeholder, validation accepts iff the content contains at least
one `[PLACEHOLDER` marker or the raw item count is at least the placeholder
count.  (The claim's `≥ placeholder_count − 1` threshold is only a soft
warning: any single marker already passes.) -/
theorem validate_refined_content_iff (slide : RSlide) (t : TSlide)
    (ht : slide.template_info = some t)
    (hmulti : 1 < (get_content_placeholders_from_template_slide t).length) :
    validateRefinedContent slide = true ↔
      (0 < countPlaceholderMarkers slide.content ∨
        (get_content_placeholders_from_template_slide t).length
          ≤ slide.content.length) := by
  simp only [validateRefinedContent, ht]
  rw [if_pos hmulti]
  by_cases hc : slide.content = []
  · rw [if_pos hc]
    rw [hc]
    simp only [countPlaceholderMarkers, List.filter_nil, List.length_nil]
    constructor
    · intro hfalse
      exact absurd hfalse (by simp)
    · intro hor
      rcases hor with h | h
      · omega
      · omega
  · rw [if_neg hc]
    by_cases hm : countPlaceholderMarkers slide.content
        < (get_content_placeholders_from_template_slide t).length - 1
    · rw [if_pos hm]
      simp
    · rw [if_neg hm]
      constructor
      · intro _
        left
        omega
      · intro _
        rfl

/-- A template slide with three content placeholders, for the C9 witness and
counterexample. -/
def threePhSlide : TSlide :=
  { suggested_content_type := none
    has_title := true
    has_subtitle := false
    has_content := true
    layout_name := "Two Content"
    content_format := none
    placeholders :=
      [ { type := "TITLE", text_format := none, suggested_lines := none,
          max_chars_per_line := none }
      , { type := "CONTENT_1", text_format := none, suggested_lines := none,
          max_chars_per_line := none }
      , { type := "CONTENT_2", text_format := none, suggested_lines := none,
          max_chars_per_line := none }
      , { type := "BODY", text_format := none, suggested_lines := none,
          max_chars_per_line := none } ] }

/-- Witness for C9 (amended) at a concrete input: two markers in the content
pass validation for three placeholders. -/
theorem validate_refined_content_witness :
    validateRefinedContent
      { title := none, subtitle := none
        content := ["a", "[PLACEHOLDER_2]", "b", "[PLACEHOLDER_3]", "c"]
        template_info := some threePhSlide } = true :=
  (validate_refined_content_iff _ threePhSlide rfl (by decide)).mpr
    (Or.inl (by decide))

/-- Counterexample to C9 as stated: with 3 content placeholders, content
`["a", "[PLACEHOLDER_2]"]` has only 1 marker (< placeholder_count − 1 = 2)
and only 2 raw items (< placeholder count 3), so the claim says it is
rejected — but the code accepts it, because any positive marker count
passes the soft check. -/
theorem validate_refined_content_counterexample :
    validateRefinedContent
      { title := none, subtitle := none
        content := ["a", "[PLACEHOLDER_2]"]
        template_info := some threePhSlide } = true ∧
      countPlaceholderMarkers ["a", "[PLACEHOLDER_2]"]
        < (get_content_placeholders_from_template_slide threePhSlide).length - 1 ∧
      (["a", "[PLACEHOLDER_2]"] : List String).length
        < (get_content_placeholders_from_template_slide threePhSlide).length := by
  refine ⟨by decide, by decide, by decide⟩

/-- The environment's answer to one refinement attempt: the LLM round-trip
produced a parsed slide, the LLM call raised (caught inside
`_refine_single_slide`, which then returns the original slide), or some
other exception escaped to the retry loop. -/
inductive AttemptOutcome where
  | success (refined : RSlide)
  | llmFail
  | exn
deriving DecidableEq, Inhabited

/-- `SlideRefiner._refine_single_slide`: with no template info the slide is
returned untouched; an LLM failure is caught and the original slide
returned; any other exception propagates. -/
def refineSingleSlide (slide : RSlide) (o : AttemptOutcome) : Except Unit RSlide :=
  match slide.template_info with
  | none => Except.ok slide
  | some _ =>
    match o with
    | AttemptOutcome.success r => Except.ok r
    | AttemptOutcome.llmFail => Except.ok slide
    | AttemptOutcome.exn => Except.error ()

/-- `SlideRefiner.max_retries`. -/
def max_retries : Nat := 3

/-- The retry loop of `_refine_single_slide_with_retry`, fed the outcomes of
the successive attempts (exactly `max_retries` of them); an exception on the
last attempt re-raises (`Except.error`), exhaustion of the loop returns the
original slide.  Also counts the attempts actually made. -/
def retryLoop (slide : RSlide) : List AttemptOutcome → Except Unit RSlide × Nat
  | [] => (Except.ok slide, 0)
  | o :: rest =>
    match refineSingleSlide slide o with
    | Except.ok refined =>
      if validateRefinedContent refined then (Except.ok refined, 1)
      else
        let p := retryLoop slide rest
        (p.1, p.2 + 1)
    | Except.error _ =>
      if rest.isEmpty then (Except.error (), 1)
      else
        let p := retryLoop slide rest
        (p.1, p.2 + 1)

/-- `_refine_single_slide_with_retry`, with the attempt outcomes supplied by
an oracle indexed by attempt number. -/
def refineSingleWithRetry (slide : RSlide) (oracle : Nat → AttemptOutcome) :
    Except Unit RSlide × Nat :=
  retryLoop slide ((List.range max_retries).map oracle)

/-- The per-slide result as `refine_slides_parallel` records it: a raised
exception is caught and the original slide kept. -/
def refineResult (slide : RSlide) (oracle : Nat → AttemptOutcome) : RSlide :=
  match (refineSingleWithRetry slide oracle).1 with
  | Except.ok r => r
  | Except.error _ => slide

/-- An attempt that ends in validation failure or service failure. -/
def attemptFails (o : AttemptOutcome) : Prop :=
  match o with
  | AttemptOutcome.success r => validateRefinedContent r = false
  | AttemptOutcome.llmFail => True
  | AttemptOutcome.exn => True

instance (o : AttemptOutcome) : Decidable (attemptFails o) := by
  unfold attemptFails
  cases o <;> infer_instance

theorem retryLoop_count_le (slide : RSlide) :
    ∀ l : List AttemptOutcome, (retryLoop slide l).2 ≤ l.length := by
  intro l
  induction l with
  | nil => simp [retryLoop]
  | cons o rest ih =>
    simp only [retryLoop]
    cases refineSingleSlide slide o with
    | ok refined =>
      by_cases hv : validateRefinedContent refined
      · simp [hv]
      · simp [hv]
        omega
    | error e =>
      by_cases hr : rest.isEmpty
      · simp [hr]
      · simp [hr]
        omega

theorem retryLoop_all_fail (slide : RSlide) :
    ∀ l : List AttemptOutcome, (∀ o ∈ l, attemptFails o) →
      (retryLoop slide l).1 = Except.ok slide ∨
        (retryLoop slide l).1 = Except.error () := by
  intro l
  induction l with
  | nil => intro _; left; rfl
  | cons o rest ih =>
    intro h
    have hrest : ∀ o ∈ rest, attemptFails o := fun x hx => h x (by simp [hx])
    simp only [retryLoop]
    match hts : slide.template_info with
    | none =>
      simp only [refineSingleSlide, hts]
      by_cases hv : validateRefinedContent slide
      · simp [hv]
      · simp only [hv, if_false]
        exact ih hrest
    | some t =>
      match o, h o (by simp) with
      | AttemptOutcome.success r, hfail =>
        simp only [refineSingleSlide, hts]
        have hv : validateRefinedContent r = false := hfail
        simp only [hv, Bool.false_eq_true, if_false]
        exact ih hrest
      | AttemptOutcome.llmFail, _ =>
        simp only [refineSingleSlide, hts]
        by_cases hv : validateRefinedContent slide
        · simp [hv]
        · simp only [hv, if_false]
          exact ih hrest
      | AttemptOutcome.exn, _ =>
        simp only [refineSingleSlide, hts]
        by_cases hr : rest.isEmpty
        · simp [hr]
        · simp only [hr, if_false]
          exact ih hrest

/-- Helper: under total failure the caller gets the original slide back. -/
theorem refineResult_of_fails (slide : RSlide) (oracle : Nat → AttemptOutcome)
    (h : ∀ k, k < max_retries → attemptFails (oracle k)) :
    refineResult slide oracle = slide := by
  have hall : ∀ o ∈ (List.range max_retries).map oracle, attemptFails o := by
    intro o ho
    obtain ⟨k, hk, rfl⟩ := List.mem_map.mp ho
    exact h k (List.mem_range.mp hk)
  unfold refineResult refineSingleWithRetry
  rcases retryLoop_all_fail slide ((List.range max_retries).map oracle) hall with
    hok | herr
  · rw [hok]
  · rw [herr]

/-- **C7** — every block gets at most 3 refinement attempts, and if every
attempt ends in validation failure or service failure, the caller of the
parallel refiner receives the block's pre-refinement content unchanged (an
exception on the last attempt is caught by `refine_slides_parallel`, which
keeps the original slide). -/
theorem refine_retry_bounded_and_preserving (slide : RSlide)
    (oracle : Nat → AttemptOutcome) :
    (refineSingleWithRetry slide oracle).2 ≤ 3 ∧
      ((∀ k, k < max_retries → attemptFails (oracle k)) →
        refineResult slide oracle = slide) := by
  constructor
  · have h := retryLoop_count_le slide ((List.range max_retries).map oracle)
    simpa [refineSingleWithRetry, max_retries] using h
  · exact refineResult_of_fails slide oracle

/-- Witness for C7 at a concrete input: with every attempt raising, the
original slide comes back after at most 3 attempts. -/
theorem refine_retry_bounded_witness :
    (refineSingleWithRetry
        { title := some "T", subtitle := none, content := ["x"],
          template_info := some threePhSlide }
        (fun _ => AttemptOutcome.exn)).2 ≤ 3 ∧
      refineResult
        { title := some "T", subtitle := none, content := ["x"],
          template_info := some threePhSlide }
        (fun _ => AttemptOutcome.exn)
        = { title := some "T", subtitle := none, content := ["x"],
            template_info := some threePhSlide } :=
  ⟨(refine_retry_bounded_and_preserving _ _).1,
    (refine_retry_bounded_and_preserving _ _).2
      (fun k _ => by simp [attemptFails])⟩

/-- The result array of `refine_slides_parallel`: `[None] * n`, filled in
completion order (`order` lists the slide indices in the order their futures
complete), each future writing its slide's result at the slide's original
index. -/
def collectByIndex (slides : List RSlide) (oracles : Nat → Nat → AttemptOutcome)
    (order : List Nat) : List (Option RSlide) :=
  order.foldl
    (fun acc i => acc.set i (some (refineResult (slides.getD i default) (oracles i))))
    (List.replicate slides.length (none : Option RSlide))

/-- `SlideRefiner.refine_slides_parallel`, with the per-attempt outcomes
supplied by `oracles slideIdx attemptIdx` and the futures completing in the
order given by `order`. -/
def refineSlidesParallel (slides : List RSlide)
    (oracles : Nat → Nat → AttemptOutcome) (order : List Nat) : List RSlide :=
  (collectByIndex slides oracles order).map (fun x => x.getD default)

theorem foldl_set_length (f : Nat → Option RSlide) (l : List Nat)
    (acc : List (Option RSlide)) :
    (l.foldl (fun a i => a.set i (f i)) acc).length = acc.length := by
  induction l generalizing acc with
  | nil => rfl
  | cons i rest ih => rw [List.foldl_cons, ih, List.length_set]

theorem foldl_set_getElem (f : Nat → Option RSlide) (l : List Nat)
    (acc : List (Option RSlide)) (j : Nat) :
    (l.foldl (fun a i => a.set i (f i)) acc)[j]?
      = if j ∈ l ∧ j < acc.length then some (f j) else acc[j]? := by
  induction l generalizing acc with
  | nil => simp
  | cons i rest ih =>
    rw [List.foldl_cons, ih, List.length_set]
    by_cases hlt : j < acc.length
    · by_cases hmem : j ∈ rest
      · rw [if_pos ⟨hmem, hlt⟩, if_pos ⟨List.mem_cons_of_mem i hmem, hlt⟩]
      · rw [if_neg (fun hcon => hmem hcon.1)]
        by_cases heq : j = i
        · subst heq
          rw [List.getElem?_set_self hlt, if_pos ⟨List.mem_cons_self j rest, hlt⟩]
        · rw [List.getElem?_set_ne (Ne.symm heq), if_neg]
          intro hcon
          rcases List.mem_cons.mp hcon.1 with h | h
          · exact heq h
          · exact hmem h
    · rw [if_neg (fun hcon => hlt hcon.2), if_neg (fun hcon => hlt hcon.2)]
      have h1 : (acc.set i (f i))[j]? = none :=
        List.getElem?_eq_none (by rw [List.length_set]; omega)
      have h2 : acc[j]? = none := List.getElem?_eq_none (by omega)
      rw [h1, h2]

theorem refineSlidesParallel_getElem (slides : List RSlide)
    (oracles : Nat → Nat → AttemptOutcome) (order : List Nat)
    (hperm : order.Perm (List.range slides.length)) (j : Nat) :
    (refineSlidesParallel slides oracles order)[j]?
      = if j < slides.length then
          some (refineResult (slides.getD j default) (oracles j))
        else none := by
  unfold refineSlidesParallel collectByIndex
  rw [List.getElem?_map, foldl_set_getElem, List.length_replicate]
  have hmem : j ∈ order ↔ j < slides.length := by
    rw [hperm.mem_iff, List.mem_range]
  by_cases hlt : j < slides.length
  · rw [if_pos ⟨hmem.mpr hlt, hlt⟩, if_pos hlt]
    rfl
  · rw [if_neg (fun hcon => hlt hcon.2), if_neg hlt,
      List.getElem?_eq_none (by rw [List.length_replicate]; omega)]
    rfl

theorem map_getD_range (l : List RSlide) :
    (List.range l.length).map (fun i => l.getD i default) = l := by
  apply List.ext_getElem?
  intro j
  rw [List.getElem?_map]
  by_cases hlt : j < l.length
  · rw [List.getElem?_range hlt]
    show some (l.getD j default) = l[j]?
    rw [List.getD_eq_getElem?_getD, List.getElem?_eq_getElem hlt]
    rfl
  · rw [List.getElem?_eq_none (l := List.range l.length)
      (by rw [List.length_range]; omega),
      List.getElem?_eq_none (by omega)]
    rfl

/-- **C8** — the parallel refiner always produces exactly one result per
input slide, at the slide's original index, for every completion order of
the underlying futures; under total service failure every slide keeps its
original content. -/
theorem refine_parallel_complete (slides : List RSlide)
    (oracles : Nat → Nat → AttemptOutcome) (order : List Nat)
    (hperm : order.Perm (List.range slides.length)) :
    (refineSlidesParallel slides oracles order).length = slides.length ∧
      refineSlidesParallel slides oracles order
        = (List.range slides.length).map
            (fun i => refineResult (slides.getD i default) (oracles i)) ∧
      ((∀ i k, k < max_retries → attemptFails (oracles i k)) →
        refineSlidesParallel slides oracles order = slides) := by
  have hlen : (refineSlidesParallel slides oracles order).length = slides.length := by
    unfold refineSlidesParallel collectByIndex
    rw [List.length_map, foldl_set_length, List.length_replicate]
  have heq : refineSlidesParallel slides oracles order
      = (List.range slides.length).map
          (fun i => refineResult (slides.getD i default) (oracles i)) := by
    apply List.ext_getElem?
    intro j
    rw [refineSlidesParallel_getElem slides oracles order hperm j,
      List.getElem?_map]
    by_cases hlt : j < slides.length
    · rw [if_pos hlt, List.getElem?_range hlt]
      rfl
    · rw [if_neg hlt, List.getElem?_eq_none (l := List.range slides.length)
        (by rw [List.length_range]; omega)]
      rfl
  refine ⟨hlen, heq, ?_⟩
  intro hfail
  rw [heq]
  have hres : ∀ i, refineResult (slides.getD i default) (oracles i)
      = slides.getD i default :=
    fun i => refineResult_of_fails _ _ (hfail i)
  calc (List.range slides.length).map
        (fun i => refineResult (slides.getD i default) (oracles i))
      = (List.range slides.length).map (fun i => slides.getD i default) := by
        apply List.map_congr_left
        intro i _
        exact hres i
    _ = slides := map_getD_range slides

/-- Witness for C8 at a concrete input: two slides, futures completing in
reverse order, every attempt failing — both slides come back unchanged in
the original order. -/
theorem refine_parallel_complete_witness :
    ([1, 0] : List Nat).Perm (List.range 2) ∧
      refineSlidesParallel
        [ { title := some "A", subtitle := none, content := ["x"],
            template_info := some threePhSlide }
        , { title := some "B", subtitle := none, content := ["y"],
            template_info := some threePhSlide } ]
        (fun _ _ => AttemptOutcome.exn) [1, 0]
        = [ { title := some "A", subtitle := none, content := ["x"],
              template_info := some threePhSlide }
          , { title := some "B", subtitle := none, content := ["y"],
              template_info := some threePhSlide } ] := by
  refine ⟨by decide, ?_⟩
  exact (refine_parallel_complete _ _ [1, 0] (by decide)).2.2
    (fun i k _ => by simp [attemptFails])

/-! ## Slide assignment mapper: `smart_mapper.py` -/

/-- An AI-generated slide dictionary; absent/empty `title`, `subtitle` are
modelled as `""` (both are falsy in the Python truthiness checks). -/
structure AiSlide where
  slide_type : String
  title : String
  subtitle : String
  content : List String
deriving DecidableEq, Inhabited

/-- `SmartMapper._analyze_ai_slide`. -/
structure AiFmt where
  slide_type : String
  has_title : Bool
  has_subtitle : Bool
  content_format : String
  content_count : Nat
  is_title_slide : Bool
  is_conclusion : Bool
deriving DecidableEq, Inhabited

def analyze_ai_slide (s : AiSlide) : AiFmt :=
  { slide_type := s.slide_type
    has_title := s.title ≠ ""
    has_subtitle := s.subtitle ≠ ""
    content_format := detect_content_format s.content
    content_count := (s.content.filter (fun x => x ≠ "" ∧ pyStrip x ≠ "")).length
    is_title_slide := s.slide_type = "title"
    is_conclusion := s.slide_type = "conclusion" }

/-- `SmartMapper._analyze_template_slide`. -/
structure TFmt where
  slide_type : String
  has_title : Bool
  has_subtitle : Bool
  content_format : String
  content_placeholder_count : Nat
  total_content_capacity : Nat
  is_title_capable : Bool
  layout_name : String
deriving DecidableEq, Inhabited

def analyze_template_slide (t : TSlide) : TFmt :=
  let content_phs := get_content_placeholders_from_template_slide t
  let aggregated := content_phs.foldl
    (fun acc ph => ph.text_format.getD acc) "bullet_list"
  { slide_type := t.suggested_content_type.getD "content"
    has_title := t.has_title
    has_subtitle := t.has_subtitle
    content_format := t.content_format.getD aggregated
    content_placeholder_count := content_phs.length
    total_content_capacity :=
      content_phs.foldl (fun acc ph => acc + ph.suggested_lines.getD 5) 0
    is_title_capable := t.has_title ∧ t.has_subtitle
    layout_name := t.layout_name }

/-- `SmartMapper._find_title_slide`: first slide satisfying one of the three
title conditions, else the first slide with title and subtitle, else 0. -/
def findTitleSlide (templateSlides : List TSlide) : Nat :=
  match templateSlides.findIdx? (fun s =>
      s.suggested_content_type = some "title" ∨
        (s.has_title ∧ s.has_subtitle ∧ ¬ s.has_content) ∨
        containsSub (pyLower s.layout_name) "title") with
  | some i => i
  | none =>
    match templateSlides.findIdx? (fun s => s.has_title ∧ s.has_subtitle) with
    | some i => i
    | none => 0

/-- The score computed by `SmartMapper._find_best_format_match` for the
template slide at index `i` of `total`. -/
def formatMatchScore (a : AiFmt) (t : TFmt) (i total : Nat) : Int :=
  (if a.content_format = t.content_format then 10 else 0)
  + (if a.slide_type = t.slide_type then 5 else 0)
  + (if a.is_conclusion ∧ (total : Int) - 3 ≤ (i : Int) then 8 else 0)
  + (if a.content_count ≤ t.total_content_capacity then 3 else 0)
  + (if a.has_title = t.has_title then 2 else 0)
  + (if a.has_subtitle = t.has_subtitle then 2 else 0)
  + (if 1 < t.content_placeholder_count ∧ 3 < a.content_count then 4 else 0)

/-- Greedy arg-max over indices `0 .. count-1`, skipping used ones, keeping
the first strictly-greatest score; `best_score` starts at `-1`. -/
def selectBest (score : Nat → Int) (count : Nat) (used : List Nat) : Option Nat :=
  ((List.range count).foldl
    (fun (best : Option Nat × Int) i =>
      if i ∈ used then best
      else if best.2 < score i then (some i, score i) else best)
    (none, -1)).1

/-- One assignment produced by the mapper: which AI slide went to which
template slide. -/
structure Mapping where
  ai_idx : Nat
  template_idx : Nat
deriving DecidableEq, Inhabited

/-- One iteration of the second pass of `SmartMapper.map_content_to_template`
for AI slide `i`: skipped when `i = 0` and the title pass already produced a
mapping, otherwise the best-scoring unused template slide (if any) is
assigned and marked used. -/
def smStep (aiFmts : List AiFmt) (tFmts : List TFmt)
    (st : List Mapping × List Nat) (i : Nat) : List Mapping × List Nat :=
  if i = 0 ∧ st.1 ≠ [] then st
  else
    match selectBest
        (fun j => formatMatchScore (aiFmts.getD i default)
          (tFmts.getD j default) j tFmts.length)
        tFmts.length st.2 with
    | some idx => (st.1 ++ [⟨i, idx⟩], idx :: st.2)
    | none => st

/-- The second pass of `SmartMapper.map_content_to_template`: map the
remaining AI slides by format matching. -/
def smPassTwo (aiFmts : List AiFmt) (tFmts : List TFmt)
    (m : List Mapping) (u : List Nat) : List Mapping × List Nat :=
  (List.range aiFmts.length).foldl (smStep aiFmts tFmts) (m, u)

/-- The first pass of `SmartMapper.map_content_to_template`: if the first AI
slide has type `title`, force-assign it to `_find_title_slide`'s choice. -/
def smPassOne (aiSlides : List AiSlide) (templateSlides : List TSlide) :
    List Mapping × List Nat :=
  match aiSlides with
  | [] => ([], [])
  | a :: _ =>
    if a.slide_type = "title" then
      ([⟨0, findTitleSlide templateSlides⟩], [findTitleSlide templateSlides])
    else ([], [])

/-- `SmartMapper.map_content_to_template`, returning the (ai index,
template index) assignments sorted by template index.  With no template
slides the AI slides are returned 1:1 with synthetic sequential indices. -/
def map_content_to_template (aiSlides : List AiSlide) (templateSlides : List TSlide) :
    List Mapping :=
  if templateSlides = [] then
    (List.range aiSlides.length).map (fun i => ⟨i, i⟩)
  else
    let aiFmts := aiSlides.map analyze_ai_slide
    let tFmts := templateSlides.map analyze_template_slide
    let pass1 := smPassOne aiSlides templateSlides
    let pass2 := smPassTwo aiFmts tFmts pass1.1 pass1.2
    let unusedT := (List.range templateSlides.length).filter (· ∉ pass2.2)
    let unmappedAi := (List.range aiSlides.length).filter
      (fun i => ¬ pass2.1.any (fun m => m.ai_idx = i))
    let m3 := pass2.1 ++ (unmappedAi.zip unusedT).map (fun p => ⟨p.1, p.2⟩)
    m3.insertionSort (fun x y => x.template_idx ≤ y.template_idx)

/-! ## Content mapper: `content_mapper.py` -/

/-- Regex `^(\d+[\.\)]\s|[a-z][\.\)]\s)` with IGNORECASE from
`ContentMapper._has_numbered_content`: digits or a single letter, then `.`
or `)`, then a whitespace. -/
def numberedOrLetterMatch (s : String) : Bool :=
  let l := s.data
  let digitBranch :=
    (!(l.takeWhile isDigitChar).isEmpty) &&
      (match l.dropWhile isDigitChar with
       | c :: w :: _ => ((c = '.' ∨ c = ')') : Bool) && isRegexSpace w
       | _ => false)
  let letterBranch :=
    match l with
    | a :: c :: w :: _ =>
      a.isAlpha && ((c = '.' ∨ c = ')') : Bool) && isRegexSpace w
    | _ => false
  digitBranch || letterBranch

/-- `ContentMapper._has_numbered_content`. -/
def has_numbered_content (items : List String) : Bool :=
  if items = [] then false
  else items.length ≤ 2 * (items.filter numberedOrLetterMatch).length

/-- The score computed by `ContentMapper._find_best_template_match` for the
template slide at index `idx` of `total`. -/
def templateMatchScore (s : AiSlide) (t : TSlide) (idx total : Nat) : Int :=
  let hasSub := s.subtitle ≠ ""
  let cc : Nat := s.content.length
  (if s.slide_type = "title" then
      ((if idx = 0 then 100 else if idx < 3 then 20 else 0) : Int)
      + (if t.suggested_content_type = some "title" then 50 else 0)
      + (if t.has_title ∧ t.has_subtitle then 30 else 0)
    else
      ((if t.suggested_content_type = some s.slide_type then 20 else 0) : Int)
      + (if idx = 0 then -50 else 0))
  + (if t.has_title then 5 else 0)
  + (if hasSub ∧ t.has_subtitle then 5
     else if ¬ hasSub ∧ ¬ t.has_subtitle then 3 else 0)
  + (if s.slide_type ≠ "title" ∧ t.has_content then
      ((if t.content_format = some "numbered_list" ∧ has_numbered_content s.content
        then 8
       else if t.content_format = some "bullet_list" ∧ 0 < cc then 6
       else if t.content_format = some "paragraph" ∧ cc ≤ 2 then 4
       else 0) : Int)
      + ((match t.placeholders.filter (fun p =>
            containsSub p.type "CONTENT" ∨ containsSub p.type "BODY") with
         | [] => 0
         | p :: _ =>
           let sl := p.suggested_lines.getD 5
           if ((sl : Int) - (cc : Int)).natAbs ≤ 2 then 5
           else if cc ≤ sl then 3 else 0) : Int)
     else 0)
  + (if s.slide_type = "conclusion" ∧ (total : Int) - 3 ≤ (idx : Int) then 10 else 0)

/-- One iteration of the mapping loop of
`ContentMapper.map_content_to_template`. -/
def cmStep (existing : List TSlide) (st : List Nat × List Nat) (s : AiSlide) :
    List Nat × List Nat :=
  match selectBest
      (fun j => templateMatchScore s (existing.getD j default) j existing.length)
      existing.length st.2 with
  | some idx => (st.1 ++ [idx], idx :: st.2)
  | none => st

/-- `ContentMapper.map_content_to_template`, returning the selected template
slide indices: the first title slide (if any, and if the template is
non-empty) is forced onto template slide 0 and all slides equal to it are
removed from further processing; the remaining slides are mapped greedily by
score. -/
def content_mapper_selected (ai_content : List AiSlide) (existing : List TSlide) :
    List Nat :=
  let titles := ai_content.filter (fun s => s.slide_type = "title")
  if titles ≠ [] ∧ 0 < existing.length then
    ((ai_content.filter (fun s => s ≠ titles.headD default)).foldl
      (cmStep existing) ([0], [0])).1
  else
    (ai_content.foldl (cmStep existing) ([], [])).1

theorem selectBest_spec (score : Nat → Int) (count : Nat) (used : List Nat)
    {i : Nat} (h : selectBest score count used = some i) :
    i ∉ used ∧ i < count := by
  have main : ∀ (l : List Nat) (acc : Option Nat × Int),
      (∀ j, acc.1 = some j → j ∉ used ∧ j < count) →
      (∀ j ∈ l, j < count) →
      ∀ j, (l.foldl
          (fun (best : Option Nat × Int) i =>
            if i ∈ used then best
            else if best.2 < score i then (some i, score i) else best)
          acc).1 = some j →
        j ∉ used ∧ j < count := by
    intro l
    induction l with
    | nil => intro acc hacc _ j hj; exact hacc j hj
    | cons k rest ih =>
      intro acc hacc hlt j hj
      rw [List.foldl_cons] at hj
      refine ih _ ?_ (fun x hx => hlt x (by simp [hx])) j hj
      intro j' hj'
      by_cases hk : k ∈ used
      · rw [if_pos hk] at hj'
        exact hacc j' hj'
      · rw [if_neg hk] at hj'
        by_cases hs : acc.2 < score k
        · rw [if_pos hs] at hj'
          simp only at hj'
          cases hj'
          exact ⟨hk, hlt k (by simp)⟩
        · rw [if_neg hs] at hj'
          exact hacc j' hj'
  unfold selectBest at h
  exact main (List.range count) (none, -1) (by intro j hj; cases hj)
    (fun j hj => List.mem_range.mp hj) i h

theorem zip_snd_sublist (l1 l2 : List Nat) :
    ((l1.zip l2).map Prod.snd).Sublist l2 := by
  induction l1 generalizing l2 with
  | nil => simp
  | cons a l1' ih =>
    cases l2 with
    | nil => simp
    | cons b l2' =>
      rw [List.zip_cons_cons, List.map_cons]
      exact List.Sublist.cons₂ b (ih l2')

theorem zip_fst_sublist (l1 l2 : List Nat) :
    ((l1.zip l2).map Prod.fst).Sublist l1 := by
  induction l1 generalizing l2 with
  | nil => simp
  | cons a l1' ih =>
    cases l2 with
    | nil => simp
    | cons b l2' =>
      rw [List.zip_cons_cons, List.map_cons]
      exact List.Sublist.cons₂ a (ih l2')

theorem smStep_inv (aiFmts : List AiFmt) (tFmts : List TFmt)
    (st : List Mapping × List Nat) (i : Nat)
    (hnd : (st.1.map Mapping.template_idx).Nodup)
    (hsub : ∀ x ∈ st.1.map Mapping.template_idx, x ∈ st.2) :
    ((smStep aiFmts tFmts st i).1.map Mapping.template_idx).Nodup ∧
      ∀ x ∈ (smStep aiFmts tFmts st i).1.map Mapping.template_idx,
        x ∈ (smStep aiFmts tFmts st i).2 := by
  unfold smStep
  split
  · exact ⟨hnd, hsub⟩
  · cases heq : selectBest
        (fun j => formatMatchScore (aiFmts.getD i default)
          (tFmts.getD j default) j tFmts.length)
        tFmts.length st.2 with
    | none => exact ⟨hnd, hsub⟩
    | some idx =>
      obtain ⟨hni, _⟩ := selectBest_spec _ _ _ heq
      constructor
      · rw [List.map_append]
        rw [List.nodup_append]
        refine ⟨hnd, by simp, ?_⟩
        intro x hx hx2
        simp only [List.map_cons, List.map_nil, List.mem_singleton] at hx2
        subst hx2
        exact hni (hsub x hx)
      · intro x hx
        rw [List.map_append] at hx
        rcases List.mem_append.mp hx with hx | hx
        · exact List.mem_cons_of_mem idx (hsub x hx)
        · simp only [List.map_cons, List.map_nil, List.mem_singleton] at hx
          rw [hx]
          exact List.mem_cons_self _ _

theorem foldl_smStep_inv (aiFmts : List AiFmt) (tFmts : List TFmt)
    (l : List Nat) :
    ∀ (st : List Mapping × List Nat),
      (st.1.map Mapping.template_idx).Nodup →
      (∀ x ∈ st.1.map Mapping.template_idx, x ∈ st.2) →
      ((l.foldl (smStep aiFmts tFmts) st).1.map Mapping.template_idx).Nodup ∧
        ∀ x ∈ (l.foldl (smStep aiFmts tFmts) st).1.map Mapping.template_idx,
          x ∈ (l.foldl (smStep aiFmts tFmts) st).2 := by
  induction l with
  | nil => intro st hnd hsub; exact ⟨hnd, hsub⟩
  | cons i rest ih =>
    intro st hnd hsub
    rw [List.foldl_cons]
    obtain ⟨h1, h2⟩ := smStep_inv aiFmts tFmts st i hnd hsub
    exact ih _ h1 h2

theorem cmStep_inv (existing : List TSlide) (st : List Nat × List Nat)
    (s : AiSlide) (hnd : st.1.Nodup) (hsub : ∀ x ∈ st.1, x ∈ st.2) :
    (cmStep existing st s).1.Nodup ∧
      ∀ x ∈ (cmStep existing st s).1, x ∈ (cmStep existing st s).2 := by
  unfold cmStep
  cases heq : selectBest
      (fun j => templateMatchScore s (existing.getD j default) j existing.length)
      existing.length st.2 with
  | none => exact ⟨hnd, hsub⟩
  | some idx =>
    obtain ⟨hni, _⟩ := selectBest_spec _ _ _ heq
    constructor
    · rw [List.nodup_append]
      refine ⟨hnd, by simp, ?_⟩
      intro x hx hx2
      simp only [List.mem_singleton] at hx2
      subst hx2
      exact hni (hsub x hx)
    · intro x hx
      rcases List.mem_append.mp hx with hx | hx
      · exact List.mem_cons_of_mem idx (hsub x hx)
      · simp only [List.mem_singleton] at hx
        rw [hx]
        exact List.mem_cons_self _ _

theorem foldl_cmStep_inv (existing : List TSlide) (l : List AiSlide) :
    ∀ (st : List Nat × List Nat), st.1.Nodup → (∀ x ∈ st.1, x ∈ st.2) →
      (l.foldl (cmStep existing) st).1.Nodup ∧
        ∀ x ∈ (l.foldl (cmStep existing) st).1,
          x ∈ (l.foldl (cmStep existing) st).2 := by
  induction l with
  | nil => intro st hnd hsub; exact ⟨hnd, hsub⟩
  | cons s rest ih =>
    intro st hnd hsub
    rw [List.foldl_cons]
    obtain ⟨h1, h2⟩ := cmStep_inv existing st s hnd hsub
    exact ih _ h1 h2

theorem smPassOne_inv (ai : List AiSlide) (ts : List TSlide) :
    ((smPassOne ai ts).1.map Mapping.template_idx).Nodup ∧
      ∀ x ∈ (smPassOne ai ts).1.map Mapping.template_idx, x ∈ (smPassOne ai ts).2 := by
  unfold smPassOne
  match ai with
  | [] => simp
  | a :: rest =>
    by_cases ht : a.slide_type = "title"
    · simp [ht]
    · simp [ht]

theorem sorted_map_nodup (l : List Mapping)
    (h : (l.map Mapping.template_idx).Nodup) :
    ((l.insertionSort (fun x y => x.template_idx ≤ y.template_idx)).map
      Mapping.template_idx).Nodup := by
  have hperm := List.perm_insertionSort
    (fun x y : Mapping => x.template_idx ≤ y.template_idx) l
  exact ((hperm.map Mapping.template_idx).nodup_iff).mpr h

theorem passes_nodup (aiFmts : List AiFmt) (tFmts : List TFmt)
    (p1 : List Mapping × List Nat) (nAi nTs : Nat)
    (hnd : (p1.1.map Mapping.template_idx).Nodup)
    (hsub : ∀ x ∈ p1.1.map Mapping.template_idx, x ∈ p1.2) :
    (((smPassTwo aiFmts tFmts p1.1 p1.2).1 ++
        ((((List.range nAi).filter
            (fun i => ¬ (smPassTwo aiFmts tFmts p1.1 p1.2).1.any
              (fun m => m.ai_idx = i))).zip
          ((List.range nTs).filter
            (· ∉ (smPassTwo aiFmts tFmts p1.1 p1.2).2))).map
          (fun p => (⟨p.1, p.2⟩ : Mapping)))).map Mapping.template_idx).Nodup := by
  obtain ⟨h1, h2⟩ := foldl_smStep_inv aiFmts tFmts (List.range aiFmts.length)
    (p1.1, p1.2) hnd hsub
  have hpass2 : smPassTwo aiFmts tFmts p1.1 p1.2
      = (List.range aiFmts.length).foldl (smStep aiFmts tFmts) (p1.1, p1.2) := rfl
  rw [List.map_append, List.nodup_append]
  rw [List.map_map]
  have hcomp : (Mapping.template_idx ∘ fun p : Nat × Nat => (⟨p.1, p.2⟩ : Mapping))
      = Prod.snd := by
    funext p
    rfl
  rw [hcomp]
  refine ⟨by rw [hpass2]; exact h1, ?_, ?_⟩
  · -- the zipped template indices come from a Nodup filter of the range
    have hsnd := zip_snd_sublist
      ((List.range nAi).filter
        (fun i => ¬ (smPassTwo aiFmts tFmts p1.1 p1.2).1.any
          (fun m => m.ai_idx = i)))
      ((List.range nTs).filter (· ∉ (smPassTwo aiFmts tFmts p1.1 p1.2).2))
    exact hsnd.nodup (List.Nodup.filter _ (List.nodup_range nTs))
  · -- disjointness: used indices versus unused ones
    intro x hx hx2
    have hxu : x ∈ (smPassTwo aiFmts tFmts p1.1 p1.2).2 := by
      rw [hpass2] at hx ⊢
      exact h2 x hx
    have hsnd := zip_snd_sublist
      ((List.range nAi).filter
        (fun i => ¬ (smPassTwo aiFmts tFmts p1.1 p1.2).1.any
          (fun m => m.ai_idx = i)))
      ((List.range nTs).filter (· ∉ (smPassTwo aiFmts tFmts p1.1 p1.2).2))
    have hxf := hsnd.subset hx2
    have := (List.mem_filter.mp hxf).2
    simp only [decide_eq_true_eq] at this
    exact this hxu

/-- **C2** — injectivity of the assignment: in a single run of either
mapper, no two returned assignments share the same template slot index
(including the synthetic 1:1 indices used when the template has no
slides). -/
theorem mapper_assignments_injective (ai : List AiSlide) (ts : List TSlide) :
    ((map_content_to_template ai ts).map Mapping.template_idx).Nodup ∧
      (content_mapper_selected ai ts).Nodup := by
  constructor
  · by_cases hts : ts = []
    · simp only [map_content_to_template, if_pos hts]
      rw [List.map_map]
      have hcomp : (Mapping.template_idx ∘ fun i : Nat => (⟨i, i⟩ : Mapping))
          = fun i => i := rfl
      rw [hcomp]
      simpa using List.nodup_range ai.length
    · simp only [map_content_to_template, if_neg hts]
      apply sorted_map_nodup
      obtain ⟨hnd, hsub⟩ := smPassOne_inv ai ts
      exact passes_nodup (ai.map analyze_ai_slide) (ts.map analyze_template_slide)
        (smPassOne ai ts) ai.length ts.length hnd hsub
  · simp only [content_mapper_selected]
    split
    · exact (foldl_cmStep_inv ts _ ([0], [0]) (by simp) (by simp)).1
    · exact (foldl_cmStep_inv ts _ ([], []) (by simp) (by simp)).1

theorem smStep_skip (aiFmts : List AiFmt) (tFmts : List TFmt)
    (st : List Mapping × List Nat) (i : Nat) (h : i = 0 ∧ st.1 ≠ []) :
    smStep aiFmts tFmts st i = st := by
  unfold smStep
  rw [if_pos h]

theorem smStep_none (aiFmts : List AiFmt) (tFmts : List TFmt)
    (st : List Mapping × List Nat) (i : Nat) (h : ¬ (i = 0 ∧ st.1 ≠ []))
    (heq : selectBest
      (fun j => formatMatchScore (aiFmts.getD i default)
        (tFmts.getD j default) j tFmts.length) tFmts.length st.2 = none) :
    smStep aiFmts tFmts st i = st := by
  unfold smStep
  rw [if_neg h, heq]

theorem smStep_some (aiFmts : List AiFmt) (tFmts : List TFmt)
    (st : List Mapping × List Nat) (i idx : Nat) (h : ¬ (i = 0 ∧ st.1 ≠ []))
    (heq : selectBest
      (fun j => formatMatchScore (aiFmts.getD i default)
        (tFmts.getD j default) j tFmts.length) tFmts.length st.2 = some idx) :
    smStep aiFmts tFmts st i = (st.1 ++ [⟨i, idx⟩], idx :: st.2) := by
  unfold smStep
  rw [if_neg h, heq]

theorem foldl_smStep_keeps (aiFmts : List AiFmt) (tFmts : List TFmt) :
    ∀ (l : List Nat) (st : List Mapping × List Nat), st.1 ≠ [] →
      ∃ extra, (l.foldl (smStep aiFmts tFmts) st).1 = st.1 ++ extra ∧
        ∀ e ∈ extra, e.ai_idx ≠ 0 := by
  intro l
  induction l with
  | nil => intro st _; exact ⟨[], by simp, by simp⟩
  | cons i rest ih =>
    intro st hne
    rw [List.foldl_cons]
    by_cases hi : i = 0 ∧ st.1 ≠ []
    · rw [smStep_skip aiFmts tFmts st i hi]
      exact ih st hne
    · have hi0 : i ≠ 0 := fun h => hi ⟨h, hne⟩
      cases heq : selectBest
          (fun j => formatMatchScore (aiFmts.getD i default)
            (tFmts.getD j default) j tFmts.length) tFmts.length st.2 with
      | none =>
        rw [smStep_none aiFmts tFmts st i hi heq]
        exact ih st hne
      | some idx =>
        rw [smStep_some aiFmts tFmts st i idx hi heq]
        obtain ⟨extra, hex, hall⟩ := ih (st.1 ++ [⟨i, idx⟩], idx :: st.2) (by simp)
        refine ⟨⟨i, idx⟩ :: extra, ?_, ?_⟩
        · rw [hex]
          simp
        · intro e he
          rcases List.mem_cons.mp he with he | he
          · rw [he]
            exact hi0
          · exact hall e he

/-- **C1** (amended) — when the first block has kind `title` and the
template is non-empty, the mapper force-assigns block 0 to
`_find_title_slide`'s choice: the first slot whose `suggested_content_type`
is `title`, or that has title and subtitle but no content placeholder, or
whose layout name contains "title" — in slide order, not in the claim's
preference order — else the first slot with title and subtitle, else slot
0.  The assignment appears in the final result and no other assignment of
block 0 ever replaces it. -/
theorem title_pinning (a : AiSlide) (rest : List AiSlide) (ts : List TSlide)
    (hts : ts ≠ []) (htitle : a.slide_type = "title") :
    (⟨0, findTitleSlide ts⟩ : Mapping) ∈ map_content_to_template (a :: rest) ts ∧
      ∀ m ∈ map_content_to_template (a :: rest) ts,
        m.ai_idx = 0 → m.template_idx = findTitleSlide ts := by
  simp only [map_content_to_template, if_neg hts]
  have hp1 : smPassOne (a :: rest) ts
      = ([⟨0, findTitleSlide ts⟩], [findTitleSlide ts]) := by
    simp [smPassOne, htitle]
  obtain ⟨extra, hex, hall⟩ := foldl_smStep_keeps
    ((a :: rest).map analyze_ai_slide) (ts.map analyze_template_slide)
    (List.range ((a :: rest).map analyze_ai_slide).length)
    (smPassOne (a :: rest) ts) (by rw [hp1]; simp)
  have hpass2 : (smPassTwo ((a :: rest).map analyze_ai_slide)
      (ts.map analyze_template_slide)
      (smPassOne (a :: rest) ts).1 (smPassOne (a :: rest) ts).2).1
      = ⟨0, findTitleSlide ts⟩ :: extra := by
    unfold smPassTwo
    rw [hex, hp1]
    rfl
  constructor
  · rw [List.mem_insertionSort]
    apply List.mem_append_left
    rw [hpass2]
    exact List.mem_cons_self _ _
  · intro m hm hm0
    rw [List.mem_insertionSort] at hm
    rcases List.mem_append.mp hm with hm | hm
    · rw [hpass2] at hm
      rcases List.mem_cons.mp hm with hm | hm
      · rw [hm]
      · exact absurd hm0 (hall m hm)
    · exfalso
      obtain ⟨p, hp, hpm⟩ := List.mem_map.mp hm
      have hfst : m.ai_idx = p.1 := by
        rw [← hpm]
      have hp1mem : p.1 ∈ (((List.range (a :: rest).length).filter
          (fun i => ¬ (smPassTwo ((a :: rest).map analyze_ai_slide)
            (ts.map analyze_template_slide)
            (smPassOne (a :: rest) ts).1 (smPassOne (a :: rest) ts).2).1.any
              (fun m => m.ai_idx = i)))) := by
        have := (zip_fst_sublist _ _).subset (List.mem_map_of_mem Prod.fst hp)
        exact this
      have hcond := (List.mem_filter.mp hp1mem).2
      rw [hfst] at hm0
      rw [hm0] at hcond
      simp only [decide_eq_true_eq] at hcond
      apply hcond
      rw [List.any_eq_true]
      exact ⟨⟨0, findTitleSlide ts⟩, by rw [hpass2]; exact List.mem_cons_self _ _,
        by simp⟩

/-- A template slide that is not marked as a title slide but has title and
subtitle placeholders and no content placeholder (second title condition in
the code). -/
def titleT0 : TSlide :=
  { suggested_content_type := some "content", has_title := true,
    has_subtitle := true, has_content := false, layout_name := "",
    content_format := none, placeholders := [] }

/-- A template slide explicitly marked as the title slide. -/
def titleT1 : TSlide :=
  { suggested_content_type := some "title", has_title := true,
    has_subtitle := true, has_content := false, layout_name := "Title Slide",
    content_format := none, placeholders := [] }

def titleAi : AiSlide :=
  { slide_type := "title", title := "T", subtitle := "S", content := [] }

/-- The slot choice described by the claim: prefer a slot whose
`suggested_kind` is `title`, else slot 0 (else a slot with both title and
subtitle placeholder roles — unreachable since slot 0 always exists). -/
def claimedTitleTarget (ts : List TSlide) : Nat :=
  match ts.findIdx? (fun s => s.suggested_content_type = some "title") with
  | some i => i
  | none => 0

/-- Counterexample to C1 as stated: slot 1 is the unique slot with
`suggested_kind = title` (the claim's top preference), but the code checks
its three title conditions slide-by-slide, so slot 0 — which merely has
title+subtitle and no content — wins, and block 0 is assigned to slot 0,
not slot 1. -/
theorem title_pinning_counterexample :
    claimedTitleTarget [titleT0, titleT1] = 1 ∧
      map_content_to_template [titleAi] [titleT0, titleT1]
        = [⟨0, 0⟩] ∧
      (0 : Nat) ≠ 1 := by
  refine ⟨by decide, by decide, by decide⟩

/-- Witness for C1 (amended) at a concrete input. -/
theorem title_pinning_witness :
    ((⟨0, findTitleSlide [titleT0, titleT1]⟩ : Mapping)
        ∈ map_content_to_template [titleAi] [titleT0, titleT1]) ∧
      ∀ m ∈ map_content_to_template [titleAi] [titleT0, titleT1],
        m.ai_idx = 0 → m.template_idx = findTitleSlide [titleT0, titleT1] :=
  title_pinning titleAi [] [titleT0, titleT1] (by decide) (by decide)

end TxtToPpt
